import Mathlib

/-!
Verification of the process-scheduler simulator.

This file contains a shallow embedding of the scheduler crate
(src/scheduler/src/scheduler.rs, schedulers/round_robin.rs, schedulers/cfs.rs,
schedulers/empty.rs, lib.rs) in Lean, together with theorems settling the
claims about it.  Machine integers (usize) are modelled as Nat with Rust's
truncating subtraction modelled as Nat subtraction; i32 fields as Int; code
that can panic (unwrap on None, integer division by zero, NonZeroUsize::new
on zero) is modelled as Option-returning functions where none marks the
panic.
-/

namespace PSched

/-- The state of a process (scheduler.rs, ProcessState). -/
inductive ProcessState where
  | Ready
  | Running
  | Waiting (event : Option Nat)
deriving DecidableEq, Repr

/-- A system call (scheduler.rs, Syscall). -/
inductive Syscall where
  | Fork (priority : Int)
  | Sleep (amount : Nat)
  | Wait (event : Nat)
  | Signal (event : Nat)
  | Exit
deriving DecidableEq, Repr

/-- The reason a process stopped (scheduler.rs, StopReason). -/
inductive StopReason where
  | Syscall (syscall : Syscall) (remaining : Nat)
  | Expired
deriving DecidableEq, Repr

/-- The result of a system call (scheduler.rs, SyscallResult). -/
inductive SyscallResult where
  | Pid (pid : Nat)
  | Success
  | NoRunningProcess
deriving DecidableEq, Repr

/-- The action the scheduler asks the OS to take (scheduler.rs,
SchedulingDecision).  Pid and timeslice are Nat; the NonZeroUsize
wrappers of the source are enforced at the production sites, where a
failed conversion is modelled as none. -/
inductive SchedulingDecision where
  | Run (pid : Nat) (timeslice : Nat)
  | Sleep (amount : Nat)
  | Deadlock
  | Panic
  | Done
deriving DecidableEq, Repr

/-- Rust's `as usize` applied to a (64-bit sign-extended) signed value. -/
def usizeOfInt (a : Int) : Nat := (a % (2 ^ 64 : Int)).toNat

/-- The PCB of the round-robin scheduler (round_robin.rs, struct PCB).
`timings` is the tuple (total, syscall, execute). -/
structure PCB where
  pid : Nat
  state : ProcessState
  timings : Nat × Nat × Nat
  priority : Int
  sleep : Int
deriving DecidableEq, Repr

/-- The round-robin scheduler state (round_robin.rs, struct RoundRobin). -/
structure RoundRobin where
  ready_queue : List PCB
  waiting_queue : List PCB
  current_process : Option PCB
  next_pid : Nat
  timeslice : Nat
  minimum_remaining_timeslice : Nat
  panic : Bool
  remaining : Nat
  sleep : Int
deriving DecidableEq, Repr

namespace RoundRobin

/-- RoundRobin::new. -/
def new (timeslice minimum_remaining_timeslice : Nat) : RoundRobin :=
  { ready_queue := []
    waiting_queue := []
    current_process := none
    next_pid := 1
    timeslice := timeslice
    minimum_remaining_timeslice := minimum_remaining_timeslice
    panic := false
    remaining := timeslice
    sleep := 0 }

/-- The loop `for p in &mut self.ready_queue { p.timings.0 += d }`
repeated in every branch of RoundRobin::stop. -/
def chargeTotal (d : Nat) (q : List PCB) : List PCB :=
  q.map fun p => { p with timings := (p.timings.1 + d, p.timings.2) }

/-- The loop over `&mut self.waiting_queue` repeated in every branch of
RoundRobin::stop: add d to total and, for sleepers (event = None),
subtract d from the sleep counter. -/
def chargeWaiting (d : Nat) (q : List PCB) : List PCB :=
  q.map fun p =>
    match p.state with
    | ProcessState.Waiting (some _) => { p with timings := (p.timings.1 + d, p.timings.2) }
    | _ => { p with timings := (p.timings.1 + d, p.timings.2), sleep := p.sleep - (d : Int) }

/-- The wake-pass `retain` block repeated in RoundRobin::stop and
RoundRobin::next: event waiters are kept, sleepers with sleep <= 0 are
removed and collected (in traversal order, with state set to Ready) to be
appended to the ready queue, other sleepers are kept.  Returns
(kept waiting queue, woken processes in order). -/
def wakeSplit : List PCB → List PCB × List PCB
  | [] => ([], [])
  | p :: rest =>
    let s := wakeSplit rest
    match p.state with
    | ProcessState.Waiting (some _) => (p :: s.1, s.2)
    | _ =>
      if p.sleep ≤ 0 then (s.1, { p with state := ProcessState.Ready } :: s.2)
      else (p :: s.1, s.2)

/-- The first `retain` block of the Signal branch of RoundRobin::stop:
waiters for exactly this event are removed and collected (state Ready). -/
def signalSplit (signal : Nat) : List PCB → List PCB × List PCB
  | [] => ([], [])
  | p :: rest =>
    let s := signalSplit signal rest
    match p.state with
    | ProcessState.Waiting (some e) =>
      if e = signal then (s.1, { p with state := ProcessState.Ready } :: s.2)
      else (p :: s.1, s.2)
    | _ => (p :: s.1, s.2)

/-- The three charge lines applied to the current process in the syscall
branches of RoundRobin::stop:
execute += d - 1, syscall += 1, total += d (with d = granted - remaining). -/
def chargeCurrent (p : PCB) (d : Nat) : PCB :=
  { p with timings := (p.timings.1 + d, p.timings.2.1 + 1, p.timings.2.2 + (d - 1)) }

/-- RoundRobin::stop.  None models a panic (Option::unwrap on None). -/
def stop (s : RoundRobin) (reason : StopReason) : Option (RoundRobin × SyscallResult) :=
  match reason with
  | StopReason.Syscall sc remaining =>
    if s.current_process = none ∧ s.next_pid ≠ 1 then
      some (s, SyscallResult.NoRunningProcess)
    else
      match sc with
      | Syscall.Fork priority =>
        let child : PCB :=
          { pid := s.next_pid, state := ProcessState.Ready, timings := (0, 0, 0),
            priority := priority, sleep := 0 }
        let d := s.remaining - remaining
        let ready := chargeTotal d s.ready_queue
        let w := wakeSplit (chargeWaiting d s.waiting_queue)
        let ready := (ready ++ w.2) ++ [child]
        match s.current_process with
        | some cur =>
          let cur := { chargeCurrent cur d with state := ProcessState.Ready }
          if remaining ≥ s.minimum_remaining_timeslice then
            some ({ s with
                      ready_queue := cur :: ready, waiting_queue := w.1,
                      current_process := none, next_pid := s.next_pid + 1,
                      remaining := remaining }, SyscallResult.Pid child.pid)
          else
            some ({ s with
                      ready_queue := ready ++ [cur], waiting_queue := w.1,
                      current_process := none, next_pid := s.next_pid + 1,
                      remaining := s.timeslice }, SyscallResult.Pid child.pid)
        | none =>
          some ({ s with
                    ready_queue := ready, waiting_queue := w.1,
                    next_pid := s.next_pid + 1 }, SyscallResult.Pid child.pid)
      | Syscall.Sleep amount =>
        match s.current_process with
        | none => none
        | some cur =>
          let d := s.remaining - remaining
          let ready := chargeTotal d s.ready_queue
          let w := wakeSplit (chargeWaiting d s.waiting_queue)
          let cur := { chargeCurrent cur d with
                       state := ProcessState.Waiting none, sleep := (amount : Int) }
          some ({ s with
                    ready_queue := ready ++ w.2, waiting_queue := w.1 ++ [cur],
                    current_process := none, remaining := s.timeslice }, SyscallResult.Success)
      | Syscall.Wait event =>
        match s.current_process with
        | none => none
        | some cur =>
          let d := s.remaining - remaining
          let ready := chargeTotal d s.ready_queue
          let w := wakeSplit (chargeWaiting d s.waiting_queue)
          let cur := { chargeCurrent cur d with state := ProcessState.Waiting (some event) }
          some ({ s with
                    ready_queue := ready ++ w.2, waiting_queue := w.1 ++ [cur],
                    current_process := none, remaining := s.timeslice }, SyscallResult.Success)
      | Syscall.Signal signal =>
        match s.current_process with
        | none => none
        | some cur =>
          let d := s.remaining - remaining
          let ready := chargeTotal d s.ready_queue
          let sg := signalSplit signal (chargeWaiting d s.waiting_queue)
          let w := wakeSplit sg.1
          let ready := (ready ++ sg.2) ++ w.2
          let cur := { chargeCurrent cur d with state := ProcessState.Ready }
          if remaining ≥ s.minimum_remaining_timeslice then
            some ({ s with
                      ready_queue := cur :: ready, waiting_queue := w.1,
                      current_process := none, remaining := remaining }, SyscallResult.Success)
          else
            some ({ s with
                      ready_queue := ready ++ [cur], waiting_queue := w.1,
                      current_process := none, remaining := s.timeslice }, SyscallResult.Success)
      | Syscall.Exit =>
        match s.current_process with
        | none => none
        | some cur =>
          let pan := if cur.pid = 1 ∧ (s.ready_queue ≠ [] ∨ s.waiting_queue ≠ []) then true
                     else s.panic
          let d := s.remaining - remaining
          let ready := chargeTotal d s.ready_queue
          let w := wakeSplit (chargeWaiting d s.waiting_queue)
          some ({ s with
                    ready_queue := ready ++ w.2, waiting_queue := w.1,
                    current_process := none, panic := pan,
                    remaining := s.timeslice }, SyscallResult.Success)
  | StopReason.Expired =>
    match s.current_process with
    | none => none
    | some cur =>
      let cur := { cur with
                     state := ProcessState.Ready,
                     timings := (cur.timings.1 + s.remaining, cur.timings.2.1,
                                 cur.timings.2.2 + s.remaining) }
      let ready := chargeTotal s.remaining s.ready_queue
      let w := wakeSplit (chargeWaiting s.remaining s.waiting_queue)
      some ({ s with
                ready_queue := (ready ++ w.2) ++ [cur], waiting_queue := w.1,
                current_process := none, remaining := s.timeslice }, SyscallResult.Success)

/-- The stable sort of the waiting queue by the sleep counter
(`self.waiting_queue.sort_by_key(|p| p.sleep)` in RoundRobin::next;
Rust's sort is stable, as is insertionSort with a total preorder). -/
def sortBySleep (q : List PCB) : List PCB :=
  List.insertionSort (fun a b => a.sleep ≤ b.sleep) q

/-- The body of the pending-sleep loop of RoundRobin::next, for one
waiter: add the slept amount to total and, for a sleeper, subtract it
from the sleep counter. -/
def applySleepOne (amount : Int) (p : PCB) : PCB :=
  match p.state with
  | ProcessState.Waiting (some _) =>
    { p with timings := (p.timings.1 + usizeOfInt amount, p.timings.2) }
  | _ =>
    { p with
        timings := (p.timings.1 + usizeOfInt amount, p.timings.2),
        sleep := p.sleep - amount }

/-- The pending-sleep application loop of RoundRobin::next. -/
def applySleepDelta (amount : Int) (q : List PCB) : List PCB :=
  q.map (applySleepOne amount)

/-- The phases of RoundRobin::next that run before its decision branches:
sort the waiting queue by sleep, apply a pending sleep delta, wake-pass. -/
def nextPhases (s : RoundRobin) : RoundRobin :=
  let sorted := sortBySleep s.waiting_queue
  let sorted := if s.sleep ≠ 0 then applySleepDelta s.sleep sorted else sorted
  let w := wakeSplit sorted
  { s with ready_queue := s.ready_queue ++ w.2, waiting_queue := w.1, sleep := 0 }

/-- The loop of RoundRobin::next that finds the sleep amount: the sleep
counter of the first non-event waiter, 0 when all waiters await events. -/
def firstSleeperSleep : List PCB → Int
  | [] => 0
  | p :: rest =>
    match p.state with
    | ProcessState.Waiting (some _) => firstSleeperSleep rest
    | _ => p.sleep

/-- RoundRobin::next.  None models the NonZeroUsize::new(..).unwrap()
panic when a Run decision would carry a zero timeslice. -/
def next (s : RoundRobin) : Option (RoundRobin × SchedulingDecision) :=
  if s.panic then some (s, SchedulingDecision.Panic)
  else
    if (nextPhases s).current_process = none ∧ (nextPhases s).ready_queue = [] ∧
        (nextPhases s).waiting_queue ≠ [] then
      if firstSleeperSleep (nextPhases s).waiting_queue = 0 then
        some (nextPhases s, SchedulingDecision.Deadlock)
      else
        some ({ nextPhases s with
                sleep := firstSleeperSleep (nextPhases s).waiting_queue },
              SchedulingDecision.Sleep
                (usizeOfInt (firstSleeperSleep (nextPhases s).waiting_queue)))
    else
      match (nextPhases s).ready_queue with
      | p :: rest =>
        if (nextPhases s).remaining = 0 then none
        else
          some ({ nextPhases s with
                    ready_queue := rest,
                    current_process := some { p with state := ProcessState.Running } },
                SchedulingDecision.Run p.pid (nextPhases s).remaining)
      | [] =>
        match (nextPhases s).current_process with
        | some p =>
          if (nextPhases s).remaining = 0 then none
          else some (nextPhases s, SchedulingDecision.Run p.pid (nextPhases s).remaining)
        | none => some (nextPhases s, SchedulingDecision.Done)

/-- RoundRobin::list: current process first, then the ready queue, then
the waiting queue. -/
def list (s : RoundRobin) : List PCB :=
  (match s.current_process with | some p => [p] | none => []) ++
    s.ready_queue ++ s.waiting_queue

end RoundRobin

/-- One external call to the scheduler. -/
inductive Op where
  | stop (reason : StopReason)
  | next
deriving DecidableEq, Repr

/-- Run a sequence of calls, aborting (none) as soon as one panics. -/
def runOps (s : RoundRobin) : List Op → Option RoundRobin
  | [] => some s
  | Op.stop r :: ops => (RoundRobin.stop s r).bind fun t => runOps t.1 ops
  | Op.next :: ops => (RoundRobin.next s).bind fun t => runOps t.1 ops

/-- Run a sequence of calls collecting the decisions returned by next. -/
def runTrace (s : RoundRobin) : List Op → Option (RoundRobin × List SchedulingDecision)
  | [] => some (s, [])
  | Op.stop r :: ops => (RoundRobin.stop s r).bind fun t => runTrace t.1 ops
  | Op.next :: ops =>
    (RoundRobin.next s).bind fun t =>
      (runTrace t.1 ops).map fun r => (r.1, t.2 :: r.2)

/-- The states of the round-robin scheduler reachable from
RoundRobin::new by any sequence of stop and next calls. -/
inductive Reached (ts mr : Nat) : RoundRobin → Prop
  | init : Reached ts mr (RoundRobin.new ts mr)
  | stop {s s1 : RoundRobin} {r : StopReason} {res : SyscallResult} :
      Reached ts mr s → RoundRobin.stop s r = some (s1, res) → Reached ts mr s1
  | next {s s1 : RoundRobin} {d : SchedulingDecision} :
      Reached ts mr s → RoundRobin.next s = some (s1, d) → Reached ts mr s1

namespace CFS

/-- The PCB of the CFS scheduler (cfs.rs, struct PCB): like the
round-robin PCB but with a vruntime counter. -/
structure PCB where
  pid : Nat
  state : ProcessState
  timings : Nat × Nat × Nat
  priority : Int
  sleep : Int
  vruntime : Nat
deriving DecidableEq, Repr

end CFS

/-- The CFS scheduler state (cfs.rs, struct CFS). -/
structure CFS where
  ready_queue : List CFS.PCB
  waiting_queue : List CFS.PCB
  current_process : Option CFS.PCB
  next_pid : Nat
  timeslice : Nat
  minimum_remaining_timeslice : Nat
  panic : Bool
  remaining : Nat
  sleep : Int
  cpu_time : Nat
  minimum_vruntime : Nat
deriving DecidableEq, Repr

namespace CFS

/-- CFS::new: the initial timeslice and remaining quantum are the whole
cpu_time. -/
def new (cpu_time minimum_remaining_timeslice : Nat) : CFS :=
  { ready_queue := []
    waiting_queue := []
    current_process := none
    next_pid := 1
    timeslice := cpu_time
    minimum_remaining_timeslice := minimum_remaining_timeslice
    panic := false
    remaining := cpu_time
    sleep := 0
    cpu_time := cpu_time
    minimum_vruntime := 0 }

/-- CFS::wake, the retain block that moves sleepers with sleep <= 0 to
the ready queue: returns (kept waiting queue, woken processes). -/
def wakeSplit : List PCB → List PCB × List PCB
  | [] => ([], [])
  | p :: rest =>
    let s := wakeSplit rest
    match p.state with
    | ProcessState.Waiting (some _) => (p :: s.1, s.2)
    | _ =>
      if p.sleep ≤ 0 then (s.1, { p with state := ProcessState.Ready } :: s.2)
      else (p :: s.1, s.2)

/-- CFS::update_ready_timings. -/
def update_ready_timings (d : Nat) (q : List PCB) : List PCB :=
  q.map fun p => { p with timings := (p.timings.1 + d, p.timings.2) }

/-- CFS::update_waiting_timings. -/
def update_waiting_timings (d : Nat) (q : List PCB) : List PCB :=
  q.map fun p =>
    match p.state with
    | ProcessState.Waiting (some _) => { p with timings := (p.timings.1 + d, p.timings.2) }
    | _ => { p with timings := (p.timings.1 + d, p.timings.2), sleep := p.sleep - (d : Int) }

/-- The signal retain block of CFS::stop. -/
def signalSplit (signal : Nat) : List PCB → List PCB × List PCB
  | [] => ([], [])
  | p :: rest =>
    let s := signalSplit signal rest
    match p.state with
    | ProcessState.Waiting (some e) =>
      if e = signal then (s.1, { p with state := ProcessState.Ready } :: s.2)
      else (p :: s.1, s.2)
    | _ => (p :: s.1, s.2)

/-- The PCB ordering of cfs.rs (PartialOrd for PCB): by vruntime, ties
broken by pid. -/
def pcbLe (a b : PCB) : Bool :=
  if a.vruntime = b.vruntime then a.pid ≤ b.pid else a.vruntime ≤ b.vruntime

/-- The `sort_by(partial_cmp)` calls on the ready queue (stable, so
insertionSort with the total order pcbLe computes the same list). -/
def sortByVruntime (q : List PCB) : List PCB :=
  List.insertionSort (fun a b => pcbLe a b = true) q

/-- CFS::update_minimum_vruntime: the minimum vruntime over the ready
queue, the waiting queue and the given current value. -/
def update_minimum_vruntime (ready waiting : List PCB) (current : Nat) : Nat :=
  ((ready.map (fun p => p.vruntime) ++ waiting.map (fun p => p.vruntime)) ++
      [current]).foldr Nat.min current

/-- CFS::reschedule_process, applied to a state whose timeslice has just
been recomputed: front of the ready queue keeping the remainder when
remaining is at least the threshold, else back with a fresh quantum. -/
def reschedule_process (s : CFS) (remaining : Nat) (p : PCB) : CFS :=
  if remaining ≥ s.minimum_remaining_timeslice then
    { s with ready_queue := p :: sortByVruntime s.ready_queue, remaining := remaining }
  else
    { s with ready_queue := sortByVruntime (s.ready_queue ++ [p]), remaining := s.timeslice }

/-- CFS::stop.  None models a panic: Option::unwrap on None, integer
division by zero, or NonZeroUsize::new(0).unwrap() when the recomputed
quantum cpu_time / divisor truncates to zero. -/
def stop (s : CFS) (reason : StopReason) : Option (CFS × SyscallResult) :=
  match reason with
  | StopReason.Syscall sc remaining =>
    if s.current_process = none ∧ s.next_pid ≠ 1 then
      some (s, SyscallResult.NoRunningProcess)
    else
      match sc with
      | Syscall.Fork priority =>
        let child : PCB :=
          { pid := s.next_pid, state := ProcessState.Ready, timings := (0, 0, 0),
            priority := priority, sleep := 0, vruntime := 0 }
        let d := s.remaining - remaining
        let ready := update_ready_timings d s.ready_queue
        let w := wakeSplit (update_waiting_timings d s.waiting_queue)
        let ready := ready ++ w.2
        let ready := if child.pid = 1 then ready ++ [child] else ready
        match s.current_process with
        | some cur =>
          let cur := { cur with
                       state := ProcessState.Ready,
                       timings := (cur.timings.1 + d, cur.timings.2.1 + 1,
                                   cur.timings.2.2 + (d - 1)),
                       vruntime := cur.vruntime + d }
          let mv := update_minimum_vruntime ready w.1 cur.vruntime
          let ready := ready ++ [{ child with vruntime := mv }]
          let q := s.cpu_time / (ready.length + 1)
          if q = 0 then none
          else
            some (reschedule_process
                    { s with
                      ready_queue := ready, waiting_queue := w.1,
                      current_process := none, next_pid := s.next_pid + 1,
                      minimum_vruntime := mv, timeslice := q }
                    (Nat.min q remaining) cur,
                  SyscallResult.Pid child.pid)
        | none =>
          some ({ s with
                  ready_queue := ready, waiting_queue := w.1,
                  next_pid := s.next_pid + 1 }, SyscallResult.Pid child.pid)
      | Syscall.Sleep amount =>
        match s.current_process with
        | none => none
        | some cur =>
          let d := s.remaining - remaining
          let ready := update_ready_timings d s.ready_queue
          let w := wakeSplit (update_waiting_timings d s.waiting_queue)
          let ready := ready ++ w.2
          if ready.length = 0 then none
          else
            let q := s.cpu_time / ready.length
            if q = 0 then none
            else
              let cur := { cur with
                           state := ProcessState.Waiting none, sleep := (amount : Int),
                           timings := (cur.timings.1 + d, cur.timings.2.1 + 1,
                                       cur.timings.2.2 + (d - 1)),
                           vruntime := cur.vruntime + d }
              some ({ s with
                      ready_queue := sortByVruntime ready,
                      waiting_queue := w.1 ++ [cur],
                      current_process := none, timeslice := q,
                      remaining := q }, SyscallResult.Success)
      | Syscall.Wait event =>
        match s.current_process with
        | none => none
        | some cur =>
          let d := s.remaining - remaining
          let ready := update_ready_timings d s.ready_queue
          let w := wakeSplit (update_waiting_timings d s.waiting_queue)
          let ready := ready ++ w.2
          if ready.length = 0 then none
          else
            let q := s.cpu_time / ready.length
            if q = 0 then none
            else
              let cur := { cur with
                           state := ProcessState.Waiting (some event),
                           timings := (cur.timings.1 + d, cur.timings.2.1 + 1,
                                       cur.timings.2.2 + (d - 1)),
                           vruntime := cur.vruntime + d }
              some ({ s with
                      ready_queue := sortByVruntime ready,
                      waiting_queue := w.1 ++ [cur],
                      current_process := none, timeslice := q,
                      remaining := q }, SyscallResult.Success)
      | Syscall.Signal signal =>
        match s.current_process with
        | none => none
        | some cur =>
          let d := s.remaining - remaining
          let ready := update_ready_timings d s.ready_queue
          let sg := signalSplit signal (update_waiting_timings d s.waiting_queue)
          let w := wakeSplit sg.1
          let ready := (ready ++ sg.2) ++ w.2
          let q := s.cpu_time / (ready.length + 1)
          if q = 0 then none
          else
            let cur := { cur with
                         state := ProcessState.Ready,
                         timings := (cur.timings.1 + d, cur.timings.2.1 + 1,
                                     cur.timings.2.2 + (d - 1)),
                         vruntime := cur.vruntime + d }
            some (reschedule_process
                    { s with
                      ready_queue := ready, waiting_queue := w.1,
                      current_process := none, timeslice := q }
                    remaining cur,
                  SyscallResult.Success)
      | Syscall.Exit =>
        match s.current_process with
        | none => none
        | some cur =>
          let pan := if cur.pid = 1 ∧ (s.ready_queue ≠ [] ∨ s.waiting_queue ≠ []) then true
                     else s.panic
          let d := s.remaining - remaining
          let ready := update_ready_timings d s.ready_queue
          let w := wakeSplit (update_waiting_timings d s.waiting_queue)
          let ready := ready ++ w.2
          if cur.pid ≠ 1 then
            if ready.length = 0 then none
            else
              let q := s.cpu_time / ready.length
              if q = 0 then none
              else
                some ({ s with
                        ready_queue := sortByVruntime ready, waiting_queue := w.1,
                        current_process := none, panic := pan, timeslice := q,
                        remaining := q }, SyscallResult.Success)
          else
            some ({ s with
                    ready_queue := sortByVruntime ready, waiting_queue := w.1,
                    current_process := none, panic := pan,
                    remaining := s.timeslice }, SyscallResult.Success)
  | StopReason.Expired =>
    match s.current_process with
    | none => none
    | some cur =>
      let cur := { cur with
                   state := ProcessState.Ready,
                   timings := (cur.timings.1 + s.remaining, cur.timings.2.1,
                               cur.timings.2.2 + s.remaining),
                   vruntime := cur.vruntime + s.remaining }
      let ready := update_ready_timings s.remaining s.ready_queue
      let w := wakeSplit (update_waiting_timings s.remaining s.waiting_queue)
      let ready := ready ++ w.2
      let q := s.cpu_time / (ready.length + 1)
      if q = 0 then none
      else
        some ({ s with
                ready_queue := sortByVruntime (ready ++ [cur]), waiting_queue := w.1,
                current_process := none, timeslice := q,
                remaining := q }, SyscallResult.Success)

/-- The sleep-delta loop of CFS::next. -/
def applySleepDelta (amount : Int) (q : List PCB) : List PCB :=
  q.map fun p =>
    match p.state with
    | ProcessState.Waiting (some _) =>
      { p with timings := (p.timings.1 + usizeOfInt amount, p.timings.2) }
    | _ =>
      { p with
          timings := (p.timings.1 + usizeOfInt amount, p.timings.2),
          sleep := p.sleep - amount }

/-- The sleep-finding loop of CFS::next. -/
def firstSleeperSleep : List PCB → Int
  | [] => 0
  | p :: rest =>
    match p.state with
    | ProcessState.Waiting (some _) => firstSleeperSleep rest
    | _ => p.sleep

/-- CFS::next. -/
def next (s : CFS) : Option (CFS × SchedulingDecision) :=
  if s.panic then some (s, SchedulingDecision.Panic)
  else
    let sorted := List.insertionSort (fun a b : PCB => a.sleep ≤ b.sleep) s.waiting_queue
    let t :=
      if s.sleep ≠ 0 then
        { s with
          ready_queue := sortByVruntime s.ready_queue,
          waiting_queue := applySleepDelta s.sleep sorted, sleep := 0 }
      else { s with waiting_queue := sorted }
    let w := wakeSplit t.waiting_queue
    let t := { t with ready_queue := t.ready_queue ++ w.2, waiting_queue := w.1 }
    if t.current_process = none ∧ t.ready_queue = [] ∧ t.waiting_queue ≠ [] then
      let amount := firstSleeperSleep t.waiting_queue
      if amount = 0 then some (t, SchedulingDecision.Deadlock)
      else some ({ t with sleep := amount }, SchedulingDecision.Sleep (usizeOfInt amount))
    else
      match t.ready_queue with
      | p :: rest =>
        if t.remaining = 0 then none
        else
          some ({ t with
                    ready_queue := rest,
                    current_process := some { p with state := ProcessState.Running } },
                SchedulingDecision.Run p.pid t.remaining)
      | [] =>
        match t.current_process with
        | some p =>
          if t.remaining = 0 then none
          else some (t, SchedulingDecision.Run p.pid t.remaining)
        | none => some (t, SchedulingDecision.Done)

end CFS

/-- One external call to the CFS scheduler. -/
def cfsRunOps (s : CFS) : List Op → Option CFS
  | [] => some s
  | Op.stop r :: ops => (CFS.stop s r).bind fun t => cfsRunOps t.1 ops
  | Op.next :: ops => (CFS.next s).bind fun t => cfsRunOps t.1 ops

/-- The Empty placeholder scheduler (schedulers/empty.rs): every method
body is unimplemented!(), i.e. an unconditional panic, modelled as none. -/
structure Empty where
deriving DecidableEq, Repr

/-- Empty::stop: unimplemented!(). -/
def Empty.stop (_s : Empty) (_reason : StopReason) : Option (Empty × SyscallResult) := none

/-- Empty::next: unimplemented!(). -/
def Empty.next (_s : Empty) : Option (Empty × SchedulingDecision) := none

/-- The public factory scheduler::round_robin of lib.rs: it constructs
and returns the Empty scheduler, ignoring both arguments. -/
def round_robin (_timeslice : Nat) (_minimum_remaining_timeslice : Nat) : Empty :=
  {}

/-! ## Helper lemmas shared by the claim theorems -/

/-- The guard at the top of the Syscall arm of RoundRobin::stop. -/
theorem rr_stop_guard (s : RoundRobin) (sc : Syscall) (rem : Nat)
    (hc : s.current_process = none) (hp : s.next_pid ≠ 1) :
    RoundRobin.stop s (StopReason.Syscall sc rem) = some (s, SyscallResult.NoRunningProcess) := by
  cases sc <;> simp [RoundRobin.stop, hc, hp]

/-- With no current process the Expired arm of RoundRobin::stop panics. -/
theorem rr_stop_expired_none (s : RoundRobin) (hc : s.current_process = none) :
    RoundRobin.stop s StopReason.Expired = none := by
  simp [RoundRobin.stop, hc]

/-- With a current process the Expired arm of RoundRobin::stop succeeds. -/
theorem rr_stop_expired_some (s : RoundRobin) (p : PCB) (hc : s.current_process = some p) :
    (RoundRobin.stop s StopReason.Expired).isSome := by
  simp [RoundRobin.stop, hc]

/-! ## Claim theorems -/

/-- Claim C1: the public factory round_robin(timeslice, minimum_remaining)
is supposed to answer the bootstrap stop(Fork(0)) with Pid(1).  The factory
in lib.rs returns the Empty scheduler, whose stop is unimplemented!() and
panics (modelled as none) instead of returning Pid(1); the RoundRobin
implementation that lib.rs fails to wire up does return Pid(1). -/
theorem claim_C1_factory_bootstrap :
    Empty.stop (round_robin 2 1) (StopReason.Syscall (Syscall.Fork 0) 0) = none ∧
    (RoundRobin.stop (RoundRobin.new 2 1) (StopReason.Syscall (Syscall.Fork 0) 0)).map
        (fun t => t.2) = some (SyscallResult.Pid 1) := by
  exact ⟨rfl, by decide⟩

/-- Claim C2: the CFS quantum recomputation is claimed to be
max(1, cpu_time / max(1, runnable_plus_current)) and never failing; at the
failing input (cpu_time 10, a single process that forks at bootstrap, is
run, then sleeps) the claimed formula yields 10, but CFS::stop divides
cpu_time by the empty ready queue length: division by zero, a panic. -/
theorem claim_C2_cfs_quantum_fails :
    cfsRunOps (CFS.new 10 1)
        [Op.stop (StopReason.Syscall (Syscall.Fork 0) 0), Op.next,
         Op.stop (StopReason.Syscall (Syscall.Sleep 5) 9)] = none ∧
    Nat.max 1 ((CFS.new 10 1).cpu_time / Nat.max 1 1) = 10 := by
  decide

/-- Claim C8: a Syscall stop with no current process and next_pid different
from 1 returns NoRunningProcess and leaves the whole state unchanged. -/
theorem claim_C8_no_running_process (s : RoundRobin) (sc : Syscall) (rem : Nat)
    (hc : s.current_process = none) (hp : s.next_pid ≠ 1) :
    RoundRobin.stop s (StopReason.Syscall sc rem) = some (s, SyscallResult.NoRunningProcess) :=
  rr_stop_guard s sc rem hc hp

/-- Witness for claim C8 at a concrete input. -/
theorem claim_C8_witness :
    RoundRobin.stop { RoundRobin.new 2 1 with next_pid := 2 }
        (StopReason.Syscall Syscall.Exit 0) =
      some ({ RoundRobin.new 2 1 with next_pid := 2 }, SyscallResult.NoRunningProcess) :=
  claim_C8_no_running_process _ Syscall.Exit 0 rfl (by decide)

/-- Claim C10: stop(Expired) requires a current process: with one it never
panics, without one it reaches the unwrap panic (none) instead of
returning NoRunningProcess the way the guarded Syscall variants do. -/
theorem claim_C10_expired_needs_current :
    (∀ s : RoundRobin, s.current_process = none →
       RoundRobin.stop s StopReason.Expired = none) ∧
    (∀ (s : RoundRobin) (p : PCB), s.current_process = some p →
       (RoundRobin.stop s StopReason.Expired).isSome) ∧
    (∀ (s : RoundRobin) (sc : Syscall) (rem : Nat),
       s.current_process = none → s.next_pid ≠ 1 →
       RoundRobin.stop s (StopReason.Syscall sc rem) =
         some (s, SyscallResult.NoRunningProcess)) :=
  ⟨fun s hc => rr_stop_expired_none s hc,
   fun s p hc => rr_stop_expired_some s p hc,
   fun s sc rem hc hp => rr_stop_guard s sc rem hc hp⟩

/-- Witness for claim C10 at concrete inputs. -/
theorem claim_C10_witness :
    RoundRobin.stop (RoundRobin.new 2 1) StopReason.Expired = none ∧
    (RoundRobin.stop
        { RoundRobin.new 2 1 with
          current_process := some ⟨1, ProcessState.Running, (0, 0, 0), 0, 0⟩,
          next_pid := 2 }
        StopReason.Expired).isSome ∧
    RoundRobin.stop { RoundRobin.new 2 1 with next_pid := 3 }
        (StopReason.Syscall (Syscall.Wait 1) 0) =
      some ({ RoundRobin.new 2 1 with next_pid := 3 }, SyscallResult.NoRunningProcess) :=
  ⟨claim_C10_expired_needs_current.1 _ rfl,
   claim_C10_expired_needs_current.2.1 _ _ rfl,
   claim_C10_expired_needs_current.2.2 _ _ _ rfl (by decide)⟩

/-- Counterexample to claim C3 as stated: in the five-exec scenario
(round robin, quantum 2, minimum remaining 1) the PCB of PID 1 at its
last observable moment, just before the final Exit stop, records timings
total 4, syscall 0, execute 4 - not total 5, syscall 1, execute 5 - and
the Exit stop then drops the PCB without charging it, leaving no process
at all in the scheduler. -/
theorem claim_C3_counterexample :
    (runOps (RoundRobin.new 2 1)
        [Op.stop (StopReason.Syscall (Syscall.Fork 0) 0), Op.next,
         Op.stop StopReason.Expired, Op.next,
         Op.stop StopReason.Expired, Op.next]).map
        (fun s => s.current_process.map fun p => p.timings) =
      some (some (4, 0, 4)) ∧
    ((4, 0, 4) : Nat × Nat × Nat) ≠ (5, 1, 5) ∧
    runOps (RoundRobin.new 2 1)
        [Op.stop (StopReason.Syscall (Syscall.Fork 0) 0), Op.next,
         Op.stop StopReason.Expired, Op.next,
         Op.stop StopReason.Expired, Op.next,
         Op.stop (StopReason.Syscall Syscall.Exit 0)] =
      some { RoundRobin.new 2 1 with next_pid := 2 } ∧
    RoundRobin.list { RoundRobin.new 2 1 with next_pid := 2 } = [] := by
  decide

/-- Claim C3 as amended: the decision sequence of the five-exec scenario
is Run(1,2), then after each Expired again Run(1,2), and the final Exit
yields Done; the final PCB for PID 1 (its last observable snapshot,
current just before the Exit) records total 4, syscall 0, execute 4,
because the Exit branch drops the process without charging it. -/
theorem claim_C3_five_execs_amended :
    runTrace (RoundRobin.new 2 1)
        [Op.stop (StopReason.Syscall (Syscall.Fork 0) 0), Op.next,
         Op.stop StopReason.Expired, Op.next,
         Op.stop StopReason.Expired, Op.next,
         Op.stop (StopReason.Syscall Syscall.Exit 0), Op.next] =
      some ({ RoundRobin.new 2 1 with next_pid := 2 },
            [SchedulingDecision.Run 1 2, SchedulingDecision.Run 1 2,
             SchedulingDecision.Run 1 2, SchedulingDecision.Done]) ∧
    (runOps (RoundRobin.new 2 1)
        [Op.stop (StopReason.Syscall (Syscall.Fork 0) 0), Op.next,
         Op.stop StopReason.Expired, Op.next,
         Op.stop StopReason.Expired, Op.next]).map
        (fun s => s.current_process.map fun p => p.timings) =
      some (some (4, 0, 4)) := by
  decide

/-! ## Membership lemmas for the queue-transforming helpers -/

theorem mem_chargeTotal {d : Nat} {q : List PCB} {p : PCB}
    (h : p ∈ RoundRobin.chargeTotal d q) :
    ∃ p0 ∈ q, p.pid = p0.pid ∧ p.state = p0.state := by
  rcases List.mem_map.mp h with ⟨p0, hp0, rfl⟩
  exact ⟨p0, hp0, rfl, rfl⟩

theorem mem_chargeWaiting {d : Nat} {q : List PCB} {p : PCB}
    (h : p ∈ RoundRobin.chargeWaiting d q) :
    ∃ p0 ∈ q, p.pid = p0.pid ∧ p.state = p0.state := by
  rcases List.mem_map.mp h with ⟨p0, hp0, rfl⟩
  refine ⟨p0, hp0, ?_⟩
  constructor <;> (dsimp only; split <;> rfl)

theorem mem_applySleepDelta {a : Int} {q : List PCB} {p : PCB}
    (h : p ∈ RoundRobin.applySleepDelta a q) :
    ∃ p0 ∈ q, p.pid = p0.pid ∧ p.state = p0.state := by
  rcases List.mem_map.mp h with ⟨p0, hp0, rfl⟩
  refine ⟨p0, hp0, ?_⟩
  constructor <;> (rw [RoundRobin.applySleepOne]; split <;> rfl)

theorem mem_wakeSplit_keep {q : List PCB} {p : PCB}
    (h : p ∈ (RoundRobin.wakeSplit q).1) :
    ∃ p0 ∈ q, p.pid = p0.pid ∧ p.state = p0.state := by
  induction q with
  | nil => simp [RoundRobin.wakeSplit] at h
  | cons a l ih =>
    simp only [RoundRobin.wakeSplit] at h
    split at h
    · rcases List.mem_cons.mp h with rfl | h2
      · exact ⟨p, List.mem_cons_self p l, rfl, rfl⟩
      · rcases ih h2 with ⟨p0, hp0, hh⟩
        exact ⟨p0, List.mem_cons_of_mem a hp0, hh⟩
    · split at h
      · rcases ih h with ⟨p0, hp0, hh⟩
        exact ⟨p0, List.mem_cons_of_mem a hp0, hh⟩
      · rcases List.mem_cons.mp h with rfl | h2
        · exact ⟨p, List.mem_cons_self p l, rfl, rfl⟩
        · rcases ih h2 with ⟨p0, hp0, hh⟩
          exact ⟨p0, List.mem_cons_of_mem a hp0, hh⟩

theorem mem_wakeSplit_woken {q : List PCB} {p : PCB}
    (h : p ∈ (RoundRobin.wakeSplit q).2) :
    (∃ p0 ∈ q, p.pid = p0.pid) ∧ p.state = ProcessState.Ready := by
  induction q with
  | nil => simp [RoundRobin.wakeSplit] at h
  | cons a l ih =>
    simp only [RoundRobin.wakeSplit] at h
    split at h
    · rcases ih h with ⟨⟨p0, hp0, hpid⟩, hst⟩
      exact ⟨⟨p0, List.mem_cons_of_mem a hp0, hpid⟩, hst⟩
    · split at h
      · rcases List.mem_cons.mp h with rfl | h2
        · exact ⟨⟨a, List.mem_cons_self a l, rfl⟩, rfl⟩
        · rcases ih h2 with ⟨⟨p0, hp0, hpid⟩, hst⟩
          exact ⟨⟨p0, List.mem_cons_of_mem a hp0, hpid⟩, hst⟩
      · rcases ih h with ⟨⟨p0, hp0, hpid⟩, hst⟩
        exact ⟨⟨p0, List.mem_cons_of_mem a hp0, hpid⟩, hst⟩

theorem mem_signalSplit_keep {sig : Nat} {q : List PCB} {p : PCB}
    (h : p ∈ (RoundRobin.signalSplit sig q).1) :
    ∃ p0 ∈ q, p.pid = p0.pid ∧ p.state = p0.state := by
  induction q with
  | nil => simp [RoundRobin.signalSplit] at h
  | cons a l ih =>
    simp only [RoundRobin.signalSplit] at h
    split at h
    · split at h
      · rcases ih h with ⟨p0, hp0, hh⟩
        exact ⟨p0, List.mem_cons_of_mem a hp0, hh⟩
      · rcases List.mem_cons.mp h with rfl | h2
        · exact ⟨p, List.mem_cons_self p l, rfl, rfl⟩
        · rcases ih h2 with ⟨p0, hp0, hh⟩
          exact ⟨p0, List.mem_cons_of_mem a hp0, hh⟩
    · rcases List.mem_cons.mp h with rfl | h2
      · exact ⟨p, List.mem_cons_self p l, rfl, rfl⟩
      · rcases ih h2 with ⟨p0, hp0, hh⟩
        exact ⟨p0, List.mem_cons_of_mem a hp0, hh⟩

theorem mem_signalSplit_woken {sig : Nat} {q : List PCB} {p : PCB}
    (h : p ∈ (RoundRobin.signalSplit sig q).2) :
    (∃ p0 ∈ q, p.pid = p0.pid) ∧ p.state = ProcessState.Ready := by
  induction q with
  | nil => simp [RoundRobin.signalSplit] at h
  | cons a l ih =>
    simp only [RoundRobin.signalSplit] at h
    split at h
    · split at h
      · rcases List.mem_cons.mp h with rfl | h2
        · exact ⟨⟨a, List.mem_cons_self a l, rfl⟩, rfl⟩
        · rcases ih h2 with ⟨⟨p0, hp0, hpid⟩, hst⟩
          exact ⟨⟨p0, List.mem_cons_of_mem a hp0, hpid⟩, hst⟩
      · rcases ih h with ⟨⟨p0, hp0, hpid⟩, hst⟩
        exact ⟨⟨p0, List.mem_cons_of_mem a hp0, hpid⟩, hst⟩
    · rcases ih h with ⟨⟨p0, hp0, hpid⟩, hst⟩
      exact ⟨⟨p0, List.mem_cons_of_mem a hp0, hpid⟩, hst⟩

theorem mem_sortBySleep {q : List PCB} {p : PCB} :
    p ∈ RoundRobin.sortBySleep q ↔ p ∈ q :=
  (List.perm_insertionSort _ q).mem_iff

/-- Counterexample to claim C4 as stated: a stop(Syscall{Exit, 0}) with a
current process (PID 1, timings (0,0,0), granted quantum 2) does not
change that process's timings by the claimed deltas: the Exit branch
drops the PCB without charging it, so afterwards no PCB at all is left
in the scheduler. -/
theorem claim_C4_counterexample :
    runOps (RoundRobin.new 2 1)
        [Op.stop (StopReason.Syscall (Syscall.Fork 0) 0), Op.next,
         Op.stop (StopReason.Syscall Syscall.Exit 0)] =
      some { RoundRobin.new 2 1 with next_pid := 2 } ∧
    RoundRobin.list { RoundRobin.new 2 1 with next_pid := 2 } = [] := by
  decide

/-- Claim C4 as amended: while a process is current, every stop with a
Fork, Sleep, Wait or Signal syscall leaves a PCB for that process whose
timings grew by exactly execute += granted - remaining - 1, syscall += 1,
total += granted - remaining; stop(Expired) adds the full granted quantum
to execute and total and leaves the syscall count unchanged; but
stop(Syscall{Exit}) drops the current process without charging it, so no
PCB for it remains (whenever its pid is not duplicated in the queues). -/
theorem claim_C4_charging (s : RoundRobin) (cur : PCB) (rem : Nat)
    (hc : s.current_process = some cur) (_hrem : rem < s.remaining) :
    (∀ (pr : Int) (s1 : RoundRobin) (res : SyscallResult),
        RoundRobin.stop s (StopReason.Syscall (Syscall.Fork pr) rem) = some (s1, res) →
        ∃ q ∈ RoundRobin.list s1, q.pid = cur.pid ∧
          q.timings = (cur.timings.1 + (s.remaining - rem), cur.timings.2.1 + 1,
                       cur.timings.2.2 + (s.remaining - rem - 1))) ∧
    (∀ (n : Nat) (s1 : RoundRobin) (res : SyscallResult),
        RoundRobin.stop s (StopReason.Syscall (Syscall.Sleep n) rem) = some (s1, res) →
        ∃ q ∈ RoundRobin.list s1, q.pid = cur.pid ∧
          q.timings = (cur.timings.1 + (s.remaining - rem), cur.timings.2.1 + 1,
                       cur.timings.2.2 + (s.remaining - rem - 1))) ∧
    (∀ (e : Nat) (s1 : RoundRobin) (res : SyscallResult),
        RoundRobin.stop s (StopReason.Syscall (Syscall.Wait e) rem) = some (s1, res) →
        ∃ q ∈ RoundRobin.list s1, q.pid = cur.pid ∧
          q.timings = (cur.timings.1 + (s.remaining - rem), cur.timings.2.1 + 1,
                       cur.timings.2.2 + (s.remaining - rem - 1))) ∧
    (∀ (e : Nat) (s1 : RoundRobin) (res : SyscallResult),
        RoundRobin.stop s (StopReason.Syscall (Syscall.Signal e) rem) = some (s1, res) →
        ∃ q ∈ RoundRobin.list s1, q.pid = cur.pid ∧
          q.timings = (cur.timings.1 + (s.remaining - rem), cur.timings.2.1 + 1,
                       cur.timings.2.2 + (s.remaining - rem - 1))) ∧
    (∀ (s1 : RoundRobin) (res : SyscallResult),
        RoundRobin.stop s (StopReason.Syscall Syscall.Exit rem) = some (s1, res) →
        s1.current_process = none ∧
        (cur.pid ∉ (s.ready_queue ++ s.waiting_queue).map PCB.pid →
          ∀ q ∈ RoundRobin.list s1, q.pid ≠ cur.pid)) ∧
    (∀ (s1 : RoundRobin) (res : SyscallResult),
        RoundRobin.stop s StopReason.Expired = some (s1, res) →
        ∃ q ∈ RoundRobin.list s1, q.pid = cur.pid ∧
          q.timings = (cur.timings.1 + s.remaining, cur.timings.2.1,
                       cur.timings.2.2 + s.remaining)) := by
  refine ⟨?_, ?_, ?_, ?_, ?_, ?_⟩
  · intro pr s1 res h
    simp only [RoundRobin.stop] at h
    rw [if_neg (by simp [hc])] at h
    simp only [hc] at h
    split at h
    all_goals
      simp only [Option.some.injEq, Prod.mk.injEq] at h
      obtain ⟨rfl, rfl⟩ := h
      exact ⟨{ RoundRobin.chargeCurrent cur (s.remaining - rem) with
               state := ProcessState.Ready }, by simp [RoundRobin.list], rfl, rfl⟩
  · intro n s1 res h
    simp only [RoundRobin.stop] at h
    rw [if_neg (by simp [hc])] at h
    simp only [hc] at h
    simp only [Option.some.injEq, Prod.mk.injEq] at h
    obtain ⟨rfl, rfl⟩ := h
    exact ⟨{ RoundRobin.chargeCurrent cur (s.remaining - rem) with
             state := ProcessState.Waiting none, sleep := (n : Int) },
           by simp [RoundRobin.list], rfl, rfl⟩
  · intro e s1 res h
    simp only [RoundRobin.stop] at h
    rw [if_neg (by simp [hc])] at h
    simp only [hc] at h
    simp only [Option.some.injEq, Prod.mk.injEq] at h
    obtain ⟨rfl, rfl⟩ := h
    exact ⟨{ RoundRobin.chargeCurrent cur (s.remaining - rem) with
             state := ProcessState.Waiting (some e) },
           by simp [RoundRobin.list], rfl, rfl⟩
  · intro e s1 res h
    simp only [RoundRobin.stop] at h
    rw [if_neg (by simp [hc])] at h
    simp only [hc] at h
    split at h
    all_goals
      simp only [Option.some.injEq, Prod.mk.injEq] at h
      obtain ⟨rfl, rfl⟩ := h
      exact ⟨{ RoundRobin.chargeCurrent cur (s.remaining - rem) with
               state := ProcessState.Ready }, by simp [RoundRobin.list], rfl, rfl⟩
  · intro s1 res h
    simp only [RoundRobin.stop] at h
    rw [if_neg (by simp [hc])] at h
    simp only [hc] at h
    simp only [Option.some.injEq, Prod.mk.injEq] at h
    obtain ⟨rfl, rfl⟩ := h
    refine ⟨rfl, ?_⟩
    intro hnot q hq hqpid
    simp only [RoundRobin.list, List.mem_append, List.not_mem_nil, false_or] at hq
    rcases hq with hq | hq
    · rcases hq with hq | hq
      · rcases mem_chargeTotal hq with ⟨p0, hp0, hpid, _⟩
        exact hnot (List.mem_map.mpr ⟨p0, List.mem_append_left _ hp0,
          by rw [← hpid, hqpid]⟩)
      · rcases (mem_wakeSplit_woken hq).1 with ⟨p1, hp1, hpid1⟩
        rcases mem_chargeWaiting hp1 with ⟨p0, hp0, hpid0, _⟩
        exact hnot (List.mem_map.mpr ⟨p0, List.mem_append_right _ hp0,
          by rw [← hpid0, ← hpid1, hqpid]⟩)
    · rcases mem_wakeSplit_keep hq with ⟨p1, hp1, hpid1, _⟩
      rcases mem_chargeWaiting hp1 with ⟨p0, hp0, hpid0, _⟩
      exact hnot (List.mem_map.mpr ⟨p0, List.mem_append_right _ hp0,
        by rw [← hpid0, ← hpid1, hqpid]⟩)
  · intro s1 res h
    simp only [RoundRobin.stop, hc] at h
    simp only [Option.some.injEq, Prod.mk.injEq] at h
    obtain ⟨rfl, rfl⟩ := h
    exact ⟨{ cur with
             state := ProcessState.Ready,
             timings := (cur.timings.1 + s.remaining, cur.timings.2.1,
                         cur.timings.2.2 + s.remaining) },
           by simp [RoundRobin.list], rfl, rfl⟩

/-- A sample reachable state: the root process PID 1 is current right
after the bootstrap fork and the first next() under round_robin(2, 1). -/
def rrBootCur : PCB := ⟨1, ProcessState.Running, (0, 0, 0), 0, 0⟩

/-- The scheduler state holding rrBootCur as current process. -/
def rrBoot : RoundRobin :=
  { RoundRobin.new 2 1 with current_process := some rrBootCur, next_pid := 2 }

/-- Witness for claim C4 at the concrete state rrBoot. -/
theorem claim_C4_witness :
    rrBoot.current_process = some rrBootCur ∧ 0 < rrBoot.remaining ∧
    (∀ (pr : Int) (s1 : RoundRobin) (res : SyscallResult),
        RoundRobin.stop rrBoot (StopReason.Syscall (Syscall.Fork pr) 0) = some (s1, res) →
        ∃ q ∈ RoundRobin.list s1, q.pid = rrBootCur.pid ∧
          q.timings = (rrBootCur.timings.1 + (rrBoot.remaining - 0),
                       rrBootCur.timings.2.1 + 1,
                       rrBootCur.timings.2.2 + (rrBoot.remaining - 0 - 1))) ∧
    (∀ (n : Nat) (s1 : RoundRobin) (res : SyscallResult),
        RoundRobin.stop rrBoot (StopReason.Syscall (Syscall.Sleep n) 0) = some (s1, res) →
        ∃ q ∈ RoundRobin.list s1, q.pid = rrBootCur.pid ∧
          q.timings = (rrBootCur.timings.1 + (rrBoot.remaining - 0),
                       rrBootCur.timings.2.1 + 1,
                       rrBootCur.timings.2.2 + (rrBoot.remaining - 0 - 1))) ∧
    (∀ (e : Nat) (s1 : RoundRobin) (res : SyscallResult),
        RoundRobin.stop rrBoot (StopReason.Syscall (Syscall.Wait e) 0) = some (s1, res) →
        ∃ q ∈ RoundRobin.list s1, q.pid = rrBootCur.pid ∧
          q.timings = (rrBootCur.timings.1 + (rrBoot.remaining - 0),
                       rrBootCur.timings.2.1 + 1,
                       rrBootCur.timings.2.2 + (rrBoot.remaining - 0 - 1))) ∧
    (∀ (e : Nat) (s1 : RoundRobin) (res : SyscallResult),
        RoundRobin.stop rrBoot (StopReason.Syscall (Syscall.Signal e) 0) = some (s1, res) →
        ∃ q ∈ RoundRobin.list s1, q.pid = rrBootCur.pid ∧
          q.timings = (rrBootCur.timings.1 + (rrBoot.remaining - 0),
                       rrBootCur.timings.2.1 + 1,
                       rrBootCur.timings.2.2 + (rrBoot.remaining - 0 - 1))) ∧
    (∀ (s1 : RoundRobin) (res : SyscallResult),
        RoundRobin.stop rrBoot (StopReason.Syscall Syscall.Exit 0) = some (s1, res) →
        s1.current_process = none ∧
        (rrBootCur.pid ∉ (rrBoot.ready_queue ++ rrBoot.waiting_queue).map PCB.pid →
          ∀ q ∈ RoundRobin.list s1, q.pid ≠ rrBootCur.pid)) ∧
    (∀ (s1 : RoundRobin) (res : SyscallResult),
        RoundRobin.stop rrBoot StopReason.Expired = some (s1, res) →
        ∃ q ∈ RoundRobin.list s1, q.pid = rrBootCur.pid ∧
          q.timings = (rrBootCur.timings.1 + rrBoot.remaining, rrBootCur.timings.2.1,
                       rrBootCur.timings.2.2 + rrBoot.remaining)) := by
  have H := claim_C4_charging rrBoot rrBootCur 0 rfl (by decide)
  exact ⟨rfl, by decide, H.1, H.2.1, H.2.2.1, H.2.2.2.1, H.2.2.2.2.1, H.2.2.2.2.2⟩

/-- No stop call ever clears a latched panic flag. -/
theorem stop_panic_mono {s s1 : RoundRobin} {r : StopReason} {res : SyscallResult}
    (h : RoundRobin.stop s r = some (s1, res)) (hp : s.panic = true) : s1.panic = true := by
  cases r with
  | Expired =>
    cases hcur : s.current_process with
    | none => simp [RoundRobin.stop, hcur] at h
    | some cur =>
      simp only [RoundRobin.stop, hcur, Option.some.injEq, Prod.mk.injEq] at h
      obtain ⟨rfl, rfl⟩ := h
      exact hp
  | Syscall sc rem =>
    by_cases hg : s.current_process = none ∧ s.next_pid ≠ 1
    · simp only [RoundRobin.stop] at h
      rw [if_pos hg] at h
      simp only [Option.some.injEq, Prod.mk.injEq] at h
      obtain ⟨rfl, rfl⟩ := h
      exact hp
    · simp only [RoundRobin.stop] at h
      rw [if_neg hg] at h
      cases hcur : s.current_process with
      | none =>
        cases sc with
        | Fork pr =>
          simp only [hcur, Option.some.injEq, Prod.mk.injEq] at h
          obtain ⟨rfl, rfl⟩ := h
          exact hp
        | Sleep n => simp [hcur] at h
        | Wait e => simp [hcur] at h
        | Signal e => simp [hcur] at h
        | Exit => simp [hcur] at h
      | some cur =>
        cases sc with
        | Fork pr =>
          simp only [hcur] at h
          split at h <;>
            (simp only [Option.some.injEq, Prod.mk.injEq] at h
             obtain ⟨rfl, rfl⟩ := h
             exact hp)
        | Sleep n =>
          simp only [hcur, Option.some.injEq, Prod.mk.injEq] at h
          obtain ⟨rfl, rfl⟩ := h
          exact hp
        | Wait e =>
          simp only [hcur, Option.some.injEq, Prod.mk.injEq] at h
          obtain ⟨rfl, rfl⟩ := h
          exact hp
        | Signal e =>
          simp only [hcur] at h
          split at h <;>
            (simp only [Option.some.injEq, Prod.mk.injEq] at h
             obtain ⟨rfl, rfl⟩ := h
             exact hp)
        | Exit =>
          simp only [hcur, Option.some.injEq, Prod.mk.injEq] at h
          obtain ⟨rfl, rfl⟩ := h
          simp only []
          split <;> simp [hp]

/-- With the panic flag latched, next() returns Panic and changes nothing. -/
theorem next_panic_true (s : RoundRobin) (hp : s.panic = true) :
    RoundRobin.next s = some (s, SchedulingDecision.Panic) := by
  simp [RoundRobin.next, hp]

/-- The panic flag survives any sequence of stop and next calls. -/
theorem runOps_panic_mono (ops : List Op) :
    ∀ s s1 : RoundRobin, runOps s ops = some s1 → s.panic = true → s1.panic = true := by
  induction ops with
  | nil =>
    intro s s1 h hp
    simp only [runOps, Option.some.injEq] at h
    exact h ▸ hp
  | cons op rest ih =>
    intro s s1 h hp
    cases op with
    | stop r =>
      cases hst : RoundRobin.stop s r with
      | none => rw [runOps, hst] at h; simp at h
      | some t =>
        rw [runOps, hst] at h
        simp only [Option.some_bind] at h
        exact ih t.1 s1 h (stop_panic_mono (show _ = some (t.1, t.2) from hst) hp)
    | next =>
      rw [runOps, next_panic_true s hp] at h
      simp only [Option.some_bind] at h
      exact ih s s1 h hp

/-- next() on an empty, non-panicked scheduler returns Done. -/
theorem next_empty_done (u : RoundRobin) (hc : u.current_process = none)
    (hr : u.ready_queue = []) (hw : u.waiting_queue = []) (hp : u.panic = false) :
    ∃ s2, RoundRobin.next u = some (s2, SchedulingDecision.Done) := by
  refine ⟨RoundRobin.nextPhases u, ?_⟩
  simp [RoundRobin.next, RoundRobin.nextPhases, RoundRobin.sortBySleep,
        RoundRobin.applySleepDelta, RoundRobin.wakeSplit, hp, hc, hr, hw,
        List.insertionSort]

/-- Claim C6: when a stop(Syscall{Exit}) removes PID 1 while the ready or
waiting queue is non-empty, the panic flag is latched, survives every later
stop or next call, and every later next() returns Panic; when both queues
are empty at that moment the flag is left alone and (when it was not
already latched) the following next() returns Done. -/
theorem claim_C6_panic_latch (s : RoundRobin) (cur : PCB) (rem : Nat)
    (s1 : RoundRobin) (res : SyscallResult)
    (hc : s.current_process = some cur) (hpid : cur.pid = 1)
    (h : RoundRobin.stop s (StopReason.Syscall Syscall.Exit rem) = some (s1, res)) :
    ((s.ready_queue ≠ [] ∨ s.waiting_queue ≠ []) → s1.panic = true) ∧
    (s.ready_queue = [] → s.waiting_queue = [] → s1.panic = s.panic) ∧
    (s.ready_queue = [] → s.waiting_queue = [] → s.panic = false →
       ∃ s2, RoundRobin.next s1 = some (s2, SchedulingDecision.Done)) ∧
    (∀ t : RoundRobin, t.panic = true →
       RoundRobin.next t = some (t, SchedulingDecision.Panic)) ∧
    (∀ (t t1 : RoundRobin) (ops : List Op), t.panic = true → runOps t ops = some t1 →
       t1.panic = true) := by
  simp only [RoundRobin.stop] at h
  rw [if_neg (by simp [hc])] at h
  simp only [hc, Option.some.injEq, Prod.mk.injEq] at h
  obtain ⟨rfl, rfl⟩ := h
  refine ⟨?_, ?_, ?_, fun t hp => next_panic_true t hp,
          fun t t1 ops hp hr => runOps_panic_mono ops t t1 hr hp⟩
  · intro hne
    show (if cur.pid = 1 ∧ (s.ready_queue ≠ [] ∨ s.waiting_queue ≠ []) then true
          else s.panic) = true
    rw [if_pos ⟨hpid, hne⟩]
  · intro hr hw
    show (if cur.pid = 1 ∧ (s.ready_queue ≠ [] ∨ s.waiting_queue ≠ []) then true
          else s.panic) = s.panic
    rw [if_neg (by simp [hr, hw])]
  · intro hr hw hp
    apply next_empty_done
    · rfl
    · show RoundRobin.chargeTotal _ s.ready_queue ++
          (RoundRobin.wakeSplit (RoundRobin.chargeWaiting _ s.waiting_queue)).2 = []
      simp [hr, hw, RoundRobin.chargeTotal, RoundRobin.chargeWaiting, RoundRobin.wakeSplit]
    · show (RoundRobin.wakeSplit (RoundRobin.chargeWaiting _ s.waiting_queue)).1 = []
      simp [hw, RoundRobin.chargeWaiting, RoundRobin.wakeSplit]
    · show (if cur.pid = 1 ∧ (s.ready_queue ≠ [] ∨ s.waiting_queue ≠ []) then true
            else s.panic) = false
      rw [if_neg (by simp [hr, hw])]
      exact hp

/-- A state where PID 1 is current and another process is ready. -/
def rrTwo : RoundRobin :=
  { RoundRobin.new 2 1 with
    current_process := some rrBootCur,
    ready_queue := [⟨2, ProcessState.Ready, (0, 0, 0), 0, 0⟩],
    next_pid := 3 }

/-- The state produced by stop(Syscall{Exit, 0}) from rrTwo: PID 1 exited
while PID 2 was ready, so panic is latched. -/
def rrTwoAfterExit : RoundRobin :=
  { RoundRobin.new 2 1 with
    ready_queue := [⟨2, ProcessState.Ready, (2, 0, 0), 0, 0⟩],
    next_pid := 3,
    panic := true }

/-- Witness for claim C6 at the concrete state rrTwo. -/
theorem claim_C6_witness :
    ((rrTwo.ready_queue ≠ [] ∨ rrTwo.waiting_queue ≠ []) → rrTwoAfterExit.panic = true) ∧
    (rrTwo.ready_queue = [] → rrTwo.waiting_queue = [] →
       rrTwoAfterExit.panic = rrTwo.panic) ∧
    (rrTwo.ready_queue = [] → rrTwo.waiting_queue = [] → rrTwo.panic = false →
       ∃ s2, RoundRobin.next rrTwoAfterExit = some (s2, SchedulingDecision.Done)) ∧
    (∀ t : RoundRobin, t.panic = true →
       RoundRobin.next t = some (t, SchedulingDecision.Panic)) ∧
    (∀ (t t1 : RoundRobin) (ops : List Op), t.panic = true → runOps t ops = some t1 →
       t1.panic = true) :=
  claim_C6_panic_latch rrTwo rrBootCur 0 rrTwoAfterExit SyscallResult.Success
    rfl rfl (by decide)

/-- True when the PCB waits for an event (Waiting with event = Some _),
the pattern matched by the continue branches of the waiting-queue loops;
false means the PCB counts as a sleeper for those loops. -/
def awaitsEvent (p : PCB) : Bool :=
  match p.state with
  | ProcessState.Waiting (some _) => true
  | _ => false

instance : IsTotal PCB (fun a b : PCB => a.sleep ≤ b.sleep) :=
  ⟨fun a b => le_total a.sleep b.sleep⟩

instance : IsTrans PCB (fun a b : PCB => a.sleep ≤ b.sleep) :=
  ⟨fun _ _ _ h1 h2 => le_trans h1 h2⟩

/-- The sleep-finding loop reads the first non-event waiter, i.e. the
head of the sleeper sublist. -/
theorem firstSleeperSleep_eq_filter (l : List PCB) :
    RoundRobin.firstSleeperSleep l =
      (match l.filter (fun p => !awaitsEvent p) with
       | [] => (0 : Int)
       | p :: _ => p.sleep) := by
  induction l with
  | nil => rfl
  | cons a rest ih =>
    rw [RoundRobin.firstSleeperSleep, List.filter_cons]
    rcases ha : a.state with _ | _ | e
    · simp [awaitsEvent, ha]
    · simp [awaitsEvent, ha]
    · rcases e with _ | ev
      · simp [awaitsEvent, ha]
      · simp [awaitsEvent, ha, ih]

/-- After the wake-pass every remaining sleeper has a positive sleep
counter (those with sleep <= 0 were woken). -/
theorem wakeSplit_keep_sleep_pos {q : List PCB} :
    ∀ p ∈ (RoundRobin.wakeSplit q).1, awaitsEvent p = false → 0 < p.sleep := by
  induction q with
  | nil => intro p hp; simp [RoundRobin.wakeSplit] at hp
  | cons a rest ih =>
    intro p hp hev
    simp only [RoundRobin.wakeSplit] at hp
    split at hp
    · rcases List.mem_cons.mp hp with rfl | h2
      · rename_i hmatch
        rw [awaitsEvent, hmatch] at hev
        exact absurd hev (by simp)
      · exact ih p h2 hev
    · split at hp
      · exact ih p hp hev
      · rcases List.mem_cons.mp hp with rfl | h2
        · omega
        · exact ih p h2 hev

/-- The kept part of the wake-pass is a sublist of the input. -/
theorem wakeSplit_keep_sublist (q : List PCB) :
    (RoundRobin.wakeSplit q).1.Sublist q := by
  induction q with
  | nil => simp [RoundRobin.wakeSplit]
  | cons a rest ih =>
    simp only [RoundRobin.wakeSplit]
    split
    · exact List.Sublist.cons₂ a ih
    · split
      · exact List.Sublist.cons a ih
      · exact List.Sublist.cons₂ a ih

/-- The per-element sleep update does not change who awaits an event. -/
theorem awaitsEvent_applySleepOne (a : Int) (p : PCB) :
    awaitsEvent (RoundRobin.applySleepOne a p) = awaitsEvent p := by
  rw [RoundRobin.applySleepOne]
  rcases ha : p.state with _ | _ | e
  · simp [awaitsEvent, ha]
  · simp [awaitsEvent, ha]
  · rcases e with _ | ev <;> simp [awaitsEvent, ha]

/-- On a sleeper the sleep update subtracts the slept amount. -/
theorem sleep_applySleepOne (a : Int) (p : PCB) (h : awaitsEvent p = false) :
    (RoundRobin.applySleepOne a p).sleep = p.sleep - a := by
  rw [RoundRobin.applySleepOne]
  rcases ha : p.state with _ | _ | e
  · rfl
  · rfl
  · rcases e with _ | ev
    · rfl
    · rw [awaitsEvent, ha] at h
      exact absurd h (by simp)

/-- Filtering the sleepers commutes with the sleep update. -/
theorem filter_applySleepDelta (a : Int) (l : List PCB) :
    (RoundRobin.applySleepDelta a l).filter (fun p => !awaitsEvent p) =
      RoundRobin.applySleepDelta a (l.filter (fun p => !awaitsEvent p)) := by
  induction l with
  | nil => rfl
  | cons p rest ih =>
    simp only [RoundRobin.applySleepDelta, List.map_cons, List.filter_cons,
               awaitsEvent_applySleepOne]
    have ih2 : List.filter (fun p => !awaitsEvent p) (List.map (RoundRobin.applySleepOne a) rest) =
        List.map (RoundRobin.applySleepOne a) (List.filter (fun p => !awaitsEvent p) rest) := by
      simpa [RoundRobin.applySleepDelta] using ih
    by_cases hev : awaitsEvent p
    · simp [hev, ih2, RoundRobin.applySleepDelta]
    · simp only [Bool.not_eq_true] at hev
      simp [hev, ih2, RoundRobin.applySleepDelta]

/-- The sleep update keeps a list of sleepers sorted by sleep. -/
theorem sorted_applySleepDelta (a : Int) (l : List PCB)
    (hall : ∀ p ∈ l, awaitsEvent p = false)
    (hs : l.Pairwise (fun x y : PCB => x.sleep ≤ y.sleep)) :
    (RoundRobin.applySleepDelta a l).Pairwise (fun x y : PCB => x.sleep ≤ y.sleep) := by
  rw [RoundRobin.applySleepDelta]
  refine (List.pairwise_map).mpr ?_
  refine hs.imp_of_mem ?_
  intro x y hx hy hxy
  rw [sleep_applySleepOne a x (hall x hx), sleep_applySleepOne a y (hall y hy)]
  omega

/-- The waiting queue of nextPhases, written through its wake-pass. -/
theorem nextPhases_waiting (s : RoundRobin) :
    (RoundRobin.nextPhases s).waiting_queue =
      (RoundRobin.wakeSplit
        (if s.sleep ≠ 0 then
           RoundRobin.applySleepDelta s.sleep (RoundRobin.sortBySleep s.waiting_queue)
         else RoundRobin.sortBySleep s.waiting_queue)).1 := rfl

/-- The sleeper sublist of the nextPhases waiting queue is sorted by
sleep counter. -/
theorem nextPhases_waiting_sorted (s : RoundRobin) :
    ((RoundRobin.nextPhases s).waiting_queue.filter
        (fun p => !awaitsEvent p)).Pairwise (fun x y : PCB => x.sleep ≤ y.sleep) := by
  rw [nextPhases_waiting]
  have hsub : ((RoundRobin.wakeSplit
      (if s.sleep ≠ 0 then
         RoundRobin.applySleepDelta s.sleep (RoundRobin.sortBySleep s.waiting_queue)
       else RoundRobin.sortBySleep s.waiting_queue)).1.filter
        (fun p => !awaitsEvent p)).Sublist
      ((if s.sleep ≠ 0 then
          RoundRobin.applySleepDelta s.sleep (RoundRobin.sortBySleep s.waiting_queue)
        else RoundRobin.sortBySleep s.waiting_queue).filter (fun p => !awaitsEvent p)) :=
    (wakeSplit_keep_sublist _).filter _
  refine List.Pairwise.sublist hsub ?_
  split
  · rw [filter_applySleepDelta]
    refine sorted_applySleepDelta _ _ (fun p hp => ?_) ?_
    · rcases List.mem_filter.mp hp with ⟨_, hev⟩
      simpa using hev
    · exact List.Pairwise.sublist (List.filter_sublist _)
        (List.sorted_insertionSort _ s.waiting_queue)
  · exact List.Pairwise.sublist (List.filter_sublist _)
      (List.sorted_insertionSort _ s.waiting_queue)

/-- The sleep amount chosen by next(): zero exactly when no sleeper
exists; otherwise a positive value equal to the smallest sleep counter
among the sleepers (given the sorted sleeper sublist and the wake-pass
positivity). -/
theorem firstSleeper_spec (l : List PCB)
    (hsorted : (l.filter (fun p => !awaitsEvent p)).Pairwise
      (fun x y : PCB => x.sleep ≤ y.sleep))
    (hpos : ∀ p ∈ l, awaitsEvent p = false → 0 < p.sleep) :
    ((∀ p ∈ l, awaitsEvent p = true) → RoundRobin.firstSleeperSleep l = 0) ∧
    ((∃ p ∈ l, awaitsEvent p = false) →
       0 < RoundRobin.firstSleeperSleep l ∧
       (∃ p ∈ l, awaitsEvent p = false ∧ p.sleep = RoundRobin.firstSleeperSleep l) ∧
       (∀ p ∈ l, awaitsEvent p = false → RoundRobin.firstSleeperSleep l ≤ p.sleep)) := by
  cases hf : l.filter (fun p => !awaitsEvent p) with
  | nil =>
    have h0 : RoundRobin.firstSleeperSleep l = 0 := by
      rw [firstSleeperSleep_eq_filter, hf]
    constructor
    · intro _
      exact h0
    · rintro ⟨p, hp, hev⟩
      have hpf : p ∈ List.filter (fun p => !awaitsEvent p) l :=
        List.mem_filter.mpr ⟨hp, by simp [hev]⟩
      rw [hf] at hpf
      exact absurd hpf (List.not_mem_nil p)
  | cons hd tl =>
    have hd_in : hd ∈ List.filter (fun p => !awaitsEvent p) l := by
      rw [hf]
      exact List.mem_cons_self hd tl
    rcases List.mem_filter.mp hd_in with ⟨hdl, hdev0⟩
    have hdev : awaitsEvent hd = false := by simpa using hdev0
    have hself : RoundRobin.firstSleeperSleep l = hd.sleep := by
      rw [firstSleeperSleep_eq_filter, hf]
    constructor
    · intro hall
      exact absurd (hall hd hdl) (by simp [hdev])
    · intro _
      refine ⟨hself ▸ hpos hd hdl hdev, ⟨hd, hdl, hdev, hself.symm⟩, ?_⟩
      intro p hp hev
      have hpf : p ∈ List.filter (fun p => !awaitsEvent p) l :=
        List.mem_filter.mpr ⟨hp, by simp [hev]⟩
      rw [hf] at hpf
      rw [hself]
      rcases List.mem_cons.mp hpf with rfl | htl
      · exact le_refl _
      · rw [hf] at hsorted
        exact (List.pairwise_cons.mp hsorted).1 p htl

/-- The positivity of sleep counters of sleepers left waiting by
nextPhases. -/
theorem nextPhases_waiting_sleep_pos (s : RoundRobin) :
    ∀ p ∈ (RoundRobin.nextPhases s).waiting_queue,
      awaitsEvent p = false → 0 < p.sleep := by
  rw [nextPhases_waiting]
  exact fun p hp => wakeSplit_keep_sleep_pos p hp

/-- Claim C7: when next() runs with no current process and, after the
wake-pass, an empty ready queue and a non-empty waiting queue, it returns
Sleep(d) with d the smallest (positive) sleep counter among the sleepers,
recording d as the pending sleep delta, when any sleeper exists; otherwise
every waiter awaits an event and it returns Deadlock.  Whenever next()
returns Deadlock the ready queue is empty and every waiter awaits an
event. -/
theorem claim_C7_sleep_or_deadlock (s : RoundRobin)
    (hpanic : s.panic = false) (hcur : s.current_process = none)
    (hready : (RoundRobin.nextPhases s).ready_queue = [])
    (hwait : (RoundRobin.nextPhases s).waiting_queue ≠ []) :
    ((∃ p ∈ (RoundRobin.nextPhases s).waiting_queue, awaitsEvent p = false) →
       ∃ d : Int, 0 < d ∧
         RoundRobin.next s =
           some ({ RoundRobin.nextPhases s with sleep := d },
                 SchedulingDecision.Sleep (usizeOfInt d)) ∧
         (∃ p ∈ (RoundRobin.nextPhases s).waiting_queue,
            awaitsEvent p = false ∧ p.sleep = d) ∧
         (∀ p ∈ (RoundRobin.nextPhases s).waiting_queue,
            awaitsEvent p = false → d ≤ p.sleep)) ∧
    ((∀ p ∈ (RoundRobin.nextPhases s).waiting_queue, awaitsEvent p = true) →
       RoundRobin.next s =
         some (RoundRobin.nextPhases s, SchedulingDecision.Deadlock)) ∧
    (∀ s0 t : RoundRobin,
       RoundRobin.next s0 = some (t, SchedulingDecision.Deadlock) →
       t.ready_queue = [] ∧ ∀ p ∈ t.waiting_queue, awaitsEvent p = true) := by
  have hspec := firstSleeper_spec _ (nextPhases_waiting_sorted s)
    (nextPhases_waiting_sleep_pos s)
  refine ⟨?_, ?_, ?_⟩
  · intro hex
    rcases hspec.2 hex with ⟨hdpos, hex2, hmin⟩
    refine ⟨RoundRobin.firstSleeperSleep (RoundRobin.nextPhases s).waiting_queue,
            hdpos, ?_, hex2, hmin⟩
    rw [RoundRobin.next, if_neg (by simp [hpanic]), if_pos ⟨hcur, hready, hwait⟩,
        if_neg (by omega)]
  · intro hall
    rw [RoundRobin.next, if_neg (by simp [hpanic]), if_pos ⟨hcur, hready, hwait⟩,
        if_pos (hspec.1 hall)]
  · intro s0 t hnext
    by_cases hp : s0.panic = true
    · rw [next_panic_true s0 hp] at hnext
      simp only [Option.some.injEq, Prod.mk.injEq] at hnext
      exact absurd hnext.2 (by decide)
    · have hp0 : s0.panic = false := by simpa using hp
      rw [RoundRobin.next, if_neg (by simp [hp0])] at hnext
      by_cases hcond : (RoundRobin.nextPhases s0).current_process = none ∧
          (RoundRobin.nextPhases s0).ready_queue = [] ∧
          (RoundRobin.nextPhases s0).waiting_queue ≠ []
      · rw [if_pos hcond] at hnext
        by_cases h0 : RoundRobin.firstSleeperSleep
            (RoundRobin.nextPhases s0).waiting_queue = 0
        · rw [if_pos h0] at hnext
          simp only [Option.some.injEq, Prod.mk.injEq] at hnext
          obtain ⟨rfl, -⟩ := hnext
          refine ⟨hcond.2.1, ?_⟩
          intro p hp2
          by_contra hev
          have hev0 : awaitsEvent p = false := by simpa using hev
          have hspec0 := firstSleeper_spec _ (nextPhases_waiting_sorted s0)
            (nextPhases_waiting_sleep_pos s0)
          rcases hspec0.2 ⟨p, hp2, hev0⟩ with ⟨hdpos, -, -⟩
          rw [h0] at hdpos
          exact absurd hdpos (lt_irrefl 0)
        · rw [if_neg h0] at hnext
          simp only [Option.some.injEq, Prod.mk.injEq] at hnext
          exact absurd hnext.2 (by simp)
      · rw [if_neg hcond] at hnext
        cases hq : (RoundRobin.nextPhases s0).ready_queue with
        | cons p rest =>
          rw [hq] at hnext
          by_cases hrem : (RoundRobin.nextPhases s0).remaining = 0 <;>
            simp [hrem] at hnext
        | nil =>
          rw [hq] at hnext
          cases hc0 : (RoundRobin.nextPhases s0).current_process with
          | some p =>
            rw [hc0] at hnext
            by_cases hrem : (RoundRobin.nextPhases s0).remaining = 0 <;>
              simp [hrem] at hnext
          | none =>
            rw [hc0] at hnext
            simp at hnext

/-- A state with no current process, an empty ready queue, one event
waiter (PID 2, event 7) and one sleeper (PID 1, 5 units left). -/
def rrSleeping : RoundRobin :=
  { RoundRobin.new 2 1 with
    waiting_queue := [⟨2, ProcessState.Waiting (some 7), (0, 0, 0), 0, 0⟩,
                      ⟨1, ProcessState.Waiting none, (1, 1, 0), 0, 5⟩],
    next_pid := 3 }

/-- Witness for claim C7 at the concrete state rrSleeping. -/
theorem claim_C7_witness :
    ((∃ p ∈ (RoundRobin.nextPhases rrSleeping).waiting_queue, awaitsEvent p = false) →
       ∃ d : Int, 0 < d ∧
         RoundRobin.next rrSleeping =
           some ({ RoundRobin.nextPhases rrSleeping with sleep := d },
                 SchedulingDecision.Sleep (usizeOfInt d)) ∧
         (∃ p ∈ (RoundRobin.nextPhases rrSleeping).waiting_queue,
            awaitsEvent p = false ∧ p.sleep = d) ∧
         (∀ p ∈ (RoundRobin.nextPhases rrSleeping).waiting_queue,
            awaitsEvent p = false → d ≤ p.sleep)) ∧
    ((∀ p ∈ (RoundRobin.nextPhases rrSleeping).waiting_queue, awaitsEvent p = true) →
       RoundRobin.next rrSleeping =
         some (RoundRobin.nextPhases rrSleeping, SchedulingDecision.Deadlock)) ∧
    (∀ s0 t : RoundRobin,
       RoundRobin.next s0 = some (t, SchedulingDecision.Deadlock) →
       t.ready_queue = [] ∧ ∀ p ∈ t.waiting_queue, awaitsEvent p = true) :=
  claim_C7_sleep_or_deadlock rrSleeping rfl rfl (by decide) (by decide)

/-- The remaining quantum, configured timeslice and threshold after a
successful stop: the configuration fields never change, and with a
positive timeslice and threshold the remaining quantum stays positive. -/
theorem stop_fields {s s1 : RoundRobin} {r : StopReason} {res : SyscallResult}
    (h : RoundRobin.stop s r = some (s1, res))
    (hts : 1 ≤ s.timeslice) (hmr : 1 ≤ s.minimum_remaining_timeslice)
    (hrem : 1 ≤ s.remaining) :
    s1.timeslice = s.timeslice ∧
    s1.minimum_remaining_timeslice = s.minimum_remaining_timeslice ∧
    1 ≤ s1.remaining := by
  cases r with
  | Expired =>
    cases hcur : s.current_process with
    | none => simp [RoundRobin.stop, hcur] at h
    | some cur =>
      simp only [RoundRobin.stop, hcur, Option.some.injEq, Prod.mk.injEq] at h
      obtain ⟨rfl, rfl⟩ := h
      exact ⟨rfl, rfl, hts⟩
  | Syscall sc rem =>
    by_cases hg : s.current_process = none ∧ s.next_pid ≠ 1
    · simp only [RoundRobin.stop] at h
      rw [if_pos hg] at h
      simp only [Option.some.injEq, Prod.mk.injEq] at h
      obtain ⟨rfl, rfl⟩ := h
      exact ⟨rfl, rfl, hrem⟩
    · simp only [RoundRobin.stop] at h
      rw [if_neg hg] at h
      cases hcur : s.current_process with
      | none =>
        cases sc with
        | Fork pr =>
          simp only [hcur, Option.some.injEq, Prod.mk.injEq] at h
          obtain ⟨rfl, rfl⟩ := h
          exact ⟨rfl, rfl, hrem⟩
        | Sleep n => simp [hcur] at h
        | Wait e => simp [hcur] at h
        | Signal e => simp [hcur] at h
        | Exit => simp [hcur] at h
      | some cur =>
        cases sc with
        | Fork pr =>
          simp only [hcur] at h
          split at h <;>
            (simp only [Option.some.injEq, Prod.mk.injEq] at h
             obtain ⟨rfl, rfl⟩ := h)
          · rename_i hge
            exact ⟨rfl, rfl, le_trans hmr hge⟩
          · exact ⟨rfl, rfl, hts⟩
        | Sleep n =>
          simp only [hcur, Option.some.injEq, Prod.mk.injEq] at h
          obtain ⟨rfl, rfl⟩ := h
          exact ⟨rfl, rfl, hts⟩
        | Wait e =>
          simp only [hcur, Option.some.injEq, Prod.mk.injEq] at h
          obtain ⟨rfl, rfl⟩ := h
          exact ⟨rfl, rfl, hts⟩
        | Signal e =>
          simp only [hcur] at h
          split at h <;>
            (simp only [Option.some.injEq, Prod.mk.injEq] at h
             obtain ⟨rfl, rfl⟩ := h)
          · rename_i hge
            exact ⟨rfl, rfl, le_trans hmr hge⟩
          · exact ⟨rfl, rfl, hts⟩
        | Exit =>
          simp only [hcur, Option.some.injEq, Prod.mk.injEq] at h
          obtain ⟨rfl, rfl⟩ := h
          exact ⟨rfl, rfl, hts⟩

/-- The remaining quantum projection of nextPhases. -/
theorem nextPhases_remaining (s : RoundRobin) :
    (RoundRobin.nextPhases s).remaining = s.remaining := rfl

/-- Configuration fields after nextPhases. -/
theorem nextPhases_fields (s : RoundRobin) :
    (RoundRobin.nextPhases s).timeslice = s.timeslice ∧
    (RoundRobin.nextPhases s).minimum_remaining_timeslice =
      s.minimum_remaining_timeslice := ⟨rfl, rfl⟩

/-- next() never changes the remaining quantum or the configuration. -/
theorem next_fields {s s1 : RoundRobin} {d : SchedulingDecision}
    (h : RoundRobin.next s = some (s1, d)) :
    s1.timeslice = s.timeslice ∧
    s1.minimum_remaining_timeslice = s.minimum_remaining_timeslice ∧
    s1.remaining = s.remaining := by
  rw [RoundRobin.next] at h
  split at h
  · simp only [Option.some.injEq, Prod.mk.injEq] at h
    obtain ⟨rfl, rfl⟩ := h
    exact ⟨rfl, rfl, rfl⟩
  · split at h
    · split at h <;>
        (simp only [Option.some.injEq, Prod.mk.injEq] at h
         obtain ⟨rfl, rfl⟩ := h
         exact ⟨rfl, rfl, rfl⟩)
    · split at h
      · split at h
        · exact absurd h (by simp)
        · simp only [Option.some.injEq, Prod.mk.injEq] at h
          obtain ⟨rfl, rfl⟩ := h
          exact ⟨rfl, rfl, rfl⟩
      · split at h
        · split at h
          · exact absurd h (by simp)
          · simp only [Option.some.injEq, Prod.mk.injEq] at h
            obtain ⟨rfl, rfl⟩ := h
            exact ⟨rfl, rfl, rfl⟩
        · simp only [Option.some.injEq, Prod.mk.injEq] at h
          obtain ⟨rfl, rfl⟩ := h
          exact ⟨rfl, rfl, rfl⟩

/-- Every reachable state keeps the configured timeslice and threshold
and, when both are positive, a positive remaining quantum. -/
theorem reached_fields {ts mr : Nat} {s : RoundRobin}
    (h : Reached ts mr s) (hts : 1 ≤ ts) (hmr : 1 ≤ mr) :
    s.timeslice = ts ∧ s.minimum_remaining_timeslice = mr ∧ 1 ≤ s.remaining := by
  induction h with
  | init => exact ⟨rfl, rfl, hts⟩
  | stop hr hs ih =>
    rcases ih with ⟨h1, h2, h3⟩
    rcases stop_fields hs (h1 ▸ hts) (h2 ▸ hmr) h3 with ⟨g1, g2, g3⟩
    exact ⟨g1.trans h1, g2.trans h2, g3⟩
  | next hr hs ih =>
    rcases ih with ⟨h1, h2, h3⟩
    rcases next_fields hs with ⟨g1, g2, g3⟩
    exact ⟨g1.trans h1, g2.trans h2, g3 ▸ h3⟩

/-- With a nonzero remaining quantum, next() cannot panic and every Run
decision carries that quantum. -/
theorem next_total_of_remaining {s : RoundRobin} (hrem : 1 ≤ s.remaining) :
    (RoundRobin.next s).isSome = true ∧
    (∀ (s1 : RoundRobin) (pid t : Nat),
       RoundRobin.next s = some (s1, SchedulingDecision.Run pid t) →
       t = s.remaining) := by
  have hne : ¬((RoundRobin.nextPhases s).remaining = 0) := by
    rw [nextPhases_remaining]
    omega
  constructor
  · rw [RoundRobin.next]
    split
    · rfl
    · split
      · split <;> rfl
      · split <;> (try split) <;> simp_all [nextPhases_remaining]
  · intro s1 pid t h
    rw [RoundRobin.next] at h
    split at h
    · simp at h
    · split at h
      · split at h <;> simp at h
      · split at h <;> (try split at h) <;> simp_all [nextPhases_remaining]

/-- Claim C9: for a round-robin scheduler built with a positive timeslice
and a positive minimum_remaining_timeslice, in every reachable state the
stored remaining quantum is at least 1, the NonZeroUsize conversions in
next() cannot fail, and every Run decision carries a nonzero timeslice. -/
theorem claim_C9_remaining_positive (ts mr : Nat) (s : RoundRobin)
    (hts : 1 ≤ ts) (hmr : 1 ≤ mr) (h : Reached ts mr s) :
    1 ≤ s.remaining ∧
    (RoundRobin.next s).isSome = true ∧
    (∀ (s1 : RoundRobin) (pid t : Nat),
       RoundRobin.next s = some (s1, SchedulingDecision.Run pid t) → 1 ≤ t) := by
  have hrem := (reached_fields h hts hmr).2.2
  have htot := next_total_of_remaining hrem
  exact ⟨hrem, htot.1, fun s1 pid t hh => (htot.2 s1 pid t hh) ▸ hrem⟩

/-- Witness for claim C9 at a concrete reachable state: the state after
the bootstrap fork under round robin with quantum 2, threshold 1. -/
theorem claim_C9_witness :
    1 ≤ ({ RoundRobin.new 2 1 with
           ready_queue := [⟨1, ProcessState.Ready, (0, 0, 0), 0, 0⟩],
           next_pid := 2 } : RoundRobin).remaining ∧
    (RoundRobin.next { RoundRobin.new 2 1 with
        ready_queue := [⟨1, ProcessState.Ready, (0, 0, 0), 0, 0⟩],
        next_pid := 2 }).isSome = true ∧
    (∀ (s1 : RoundRobin) (pid t : Nat),
       RoundRobin.next { RoundRobin.new 2 1 with
           ready_queue := [⟨1, ProcessState.Ready, (0, 0, 0), 0, 0⟩],
           next_pid := 2 } = some (s1, SchedulingDecision.Run pid t) → 1 ≤ t) :=
  claim_C9_remaining_positive 2 1 _ (by decide) (by decide)
    (@Reached.stop 2 1 (RoundRobin.new 2 1) _
      (StopReason.Syscall (Syscall.Fork 0) 0) (SyscallResult.Pid 1)
      Reached.init (by decide))

/-- No PCB in the queue is marked Running. -/
def noRunning (q : List PCB) : Prop :=
  ∀ p ∈ q, p.state ≠ ProcessState.Running

theorem noRunning_nil : noRunning [] := fun p hp => absurd hp (List.not_mem_nil p)

theorem noRunning_append {l1 l2 : List PCB} (h1 : noRunning l1) (h2 : noRunning l2) :
    noRunning (l1 ++ l2) := by
  intro p hp
  rcases List.mem_append.mp hp with h | h
  · exact h1 p h
  · exact h2 p h

theorem noRunning_cons {a : PCB} {l : List PCB} (ha : a.state ≠ ProcessState.Running)
    (h : noRunning l) : noRunning (a :: l) := by
  intro p hp
  rcases List.mem_cons.mp hp with rfl | hp2
  · exact ha
  · exact h p hp2

theorem nr_chargeTotal {d : Nat} {q : List PCB} (h : noRunning q) :
    noRunning (RoundRobin.chargeTotal d q) := by
  intro p hp
  rcases mem_chargeTotal hp with ⟨p0, h0, _, hst⟩
  rw [hst]
  exact h p0 h0

theorem nr_chargeWaiting {d : Nat} {q : List PCB} (h : noRunning q) :
    noRunning (RoundRobin.chargeWaiting d q) := by
  intro p hp
  rcases mem_chargeWaiting hp with ⟨p0, h0, _, hst⟩
  rw [hst]
  exact h p0 h0

theorem nr_applySleepDelta {a : Int} {q : List PCB} (h : noRunning q) :
    noRunning (RoundRobin.applySleepDelta a q) := by
  intro p hp
  rcases mem_applySleepDelta hp with ⟨p0, h0, _, hst⟩
  rw [hst]
  exact h p0 h0

theorem nr_sortBySleep {q : List PCB} (h : noRunning q) :
    noRunning (RoundRobin.sortBySleep q) :=
  fun p hp => h p (mem_sortBySleep.mp hp)

theorem nr_wakeKeep {q : List PCB} (h : noRunning q) :
    noRunning (RoundRobin.wakeSplit q).1 := by
  intro p hp
  rcases mem_wakeSplit_keep hp with ⟨p0, h0, _, hst⟩
  rw [hst]
  exact h p0 h0

theorem nr_wakeWoken {q : List PCB} : noRunning (RoundRobin.wakeSplit q).2 := by
  intro p hp hcon
  rw [(mem_wakeSplit_woken hp).2] at hcon
  exact absurd hcon (by decide)

theorem nr_signalKeep {sig : Nat} {q : List PCB} (h : noRunning q) :
    noRunning (RoundRobin.signalSplit sig q).1 := by
  intro p hp
  rcases mem_signalSplit_keep hp with ⟨p0, h0, _, hst⟩
  rw [hst]
  exact h p0 h0

theorem nr_signalWoken {sig : Nat} {q : List PCB} :
    noRunning (RoundRobin.signalSplit sig q).2 := by
  intro p hp hcon
  rw [(mem_signalSplit_woken hp).2] at hcon
  exact absurd hcon (by decide)

/-- A successful stop never puts a Running PCB into either queue. -/
theorem stop_noRunning {s s1 : RoundRobin} {r : StopReason} {res : SyscallResult}
    (h : RoundRobin.stop s r = some (s1, res))
    (hr : noRunning s.ready_queue) (hw : noRunning s.waiting_queue) :
    noRunning s1.ready_queue ∧ noRunning s1.waiting_queue := by
  cases r with
  | Expired =>
    cases hcur : s.current_process with
    | none => simp [RoundRobin.stop, hcur] at h
    | some cur =>
      simp only [RoundRobin.stop, hcur, Option.some.injEq, Prod.mk.injEq] at h
      obtain ⟨rfl, rfl⟩ := h
      refine ⟨noRunning_append (noRunning_append (nr_chargeTotal hr)
        (nr_wakeWoken)) ?_, nr_wakeKeep (nr_chargeWaiting hw)⟩
      exact noRunning_cons (by simp) noRunning_nil
  | Syscall sc rem =>
    by_cases hg : s.current_process = none ∧ s.next_pid ≠ 1
    · simp only [RoundRobin.stop] at h
      rw [if_pos hg] at h
      simp only [Option.some.injEq, Prod.mk.injEq] at h
      obtain ⟨rfl, rfl⟩ := h
      exact ⟨hr, hw⟩
    · simp only [RoundRobin.stop] at h
      rw [if_neg hg] at h
      cases hcur : s.current_process with
      | none =>
        cases sc with
        | Fork pr =>
          simp only [hcur, Option.some.injEq, Prod.mk.injEq] at h
          obtain ⟨rfl, rfl⟩ := h
          refine ⟨noRunning_append (noRunning_append (nr_chargeTotal hr)
            (nr_wakeWoken)) ?_, nr_wakeKeep (nr_chargeWaiting hw)⟩
          exact noRunning_cons (by simp) noRunning_nil
        | Sleep n => simp [hcur] at h
        | Wait e => simp [hcur] at h
        | Signal e => simp [hcur] at h
        | Exit => simp [hcur] at h
      | some cur =>
        cases sc with
        | Fork pr =>
          simp only [hcur] at h
          split at h <;>
            (simp only [Option.some.injEq, Prod.mk.injEq] at h
             obtain ⟨rfl, rfl⟩ := h)
          · refine ⟨noRunning_cons (by simp) ?_, nr_wakeKeep (nr_chargeWaiting hw)⟩
            refine noRunning_append (noRunning_append (nr_chargeTotal hr)
              (nr_wakeWoken)) ?_
            exact noRunning_cons (by simp) noRunning_nil
          · refine ⟨noRunning_append ?_ (noRunning_cons (by simp) noRunning_nil),
                    nr_wakeKeep (nr_chargeWaiting hw)⟩
            refine noRunning_append (noRunning_append (nr_chargeTotal hr)
              (nr_wakeWoken)) ?_
            exact noRunning_cons (by simp) noRunning_nil
        | Sleep n =>
          simp only [hcur, Option.some.injEq, Prod.mk.injEq] at h
          obtain ⟨rfl, rfl⟩ := h
          refine ⟨noRunning_append (nr_chargeTotal hr) (nr_wakeWoken),
                  noRunning_append (nr_wakeKeep (nr_chargeWaiting hw)) ?_⟩
          exact noRunning_cons (by simp) noRunning_nil
        | Wait e =>
          simp only [hcur, Option.some.injEq, Prod.mk.injEq] at h
          obtain ⟨rfl, rfl⟩ := h
          refine ⟨noRunning_append (nr_chargeTotal hr) (nr_wakeWoken),
                  noRunning_append (nr_wakeKeep (nr_chargeWaiting hw)) ?_⟩
          exact noRunning_cons (by simp) noRunning_nil
        | Signal e =>
          simp only [hcur] at h
          split at h <;>
            (simp only [Option.some.injEq, Prod.mk.injEq] at h
             obtain ⟨rfl, rfl⟩ := h)
          · exact ⟨noRunning_cons (by simp)
              (noRunning_append (noRunning_append (nr_chargeTotal hr)
                (nr_signalWoken)) (nr_wakeWoken)),
              nr_wakeKeep (nr_signalKeep (nr_chargeWaiting hw))⟩
          · exact ⟨noRunning_append
              (noRunning_append (noRunning_append (nr_chargeTotal hr)
                (nr_signalWoken)) (nr_wakeWoken))
              (noRunning_cons (by simp) noRunning_nil),
              nr_wakeKeep (nr_signalKeep (nr_chargeWaiting hw))⟩
        | Exit =>
          simp only [hcur, Option.some.injEq, Prod.mk.injEq] at h
          obtain ⟨rfl, rfl⟩ := h
          exact ⟨noRunning_append (nr_chargeTotal hr) (nr_wakeWoken),
                 nr_wakeKeep (nr_chargeWaiting hw)⟩

/-- The two queues of nextPhases contain no Running PCB. -/
theorem nextPhases_noRunning {s : RoundRobin}
    (hr : noRunning s.ready_queue) (hw : noRunning s.waiting_queue) :
    noRunning (RoundRobin.nextPhases s).ready_queue ∧
    noRunning (RoundRobin.nextPhases s).waiting_queue := by
  have hl1 : noRunning (if s.sleep ≠ 0 then
      RoundRobin.applySleepDelta s.sleep (RoundRobin.sortBySleep s.waiting_queue)
    else RoundRobin.sortBySleep s.waiting_queue) := by
    split
    · exact nr_applySleepDelta (nr_sortBySleep hw)
    · exact nr_sortBySleep hw
  constructor
  · exact noRunning_append hr (nr_wakeWoken)
  · rw [nextPhases_waiting]
    exact nr_wakeKeep hl1

/-- A successful next never puts a Running PCB into either queue. -/
theorem next_noRunning {s s1 : RoundRobin} {d : SchedulingDecision}
    (h : RoundRobin.next s = some (s1, d))
    (hr : noRunning s.ready_queue) (hw : noRunning s.waiting_queue) :
    noRunning s1.ready_queue ∧ noRunning s1.waiting_queue := by
  have hn := nextPhases_noRunning hr hw
  rw [RoundRobin.next] at h
  split at h
  · simp only [Option.some.injEq, Prod.mk.injEq] at h
    obtain ⟨rfl, rfl⟩ := h
    exact ⟨hr, hw⟩
  · split at h
    · split at h <;>
        (simp only [Option.some.injEq, Prod.mk.injEq] at h
         obtain ⟨rfl, rfl⟩ := h)
      · exact hn
      · exact hn
    · split at h
      · rename_i p rest heq
        split at h
        · exact absurd h (by simp)
        · simp only [Option.some.injEq, Prod.mk.injEq] at h
          obtain ⟨rfl, rfl⟩ := h
          refine ⟨?_, hn.2⟩
          intro q hq
          exact hn.1 q (heq ▸ List.mem_cons_of_mem p hq)
      · split at h
        · split at h
          · exact absurd h (by simp)
          · simp only [Option.some.injEq, Prod.mk.injEq] at h
            obtain ⟨rfl, rfl⟩ := h
            exact hn
        · simp only [Option.some.injEq, Prod.mk.injEq] at h
          obtain ⟨rfl, rfl⟩ := h
          exact hn

/-- Every reachable state has Running-free queues. -/
theorem reached_noRunning {ts mr : Nat} {s : RoundRobin} (h : Reached ts mr s) :
    noRunning s.ready_queue ∧ noRunning s.waiting_queue := by
  induction h with
  | init => exact ⟨noRunning_nil, noRunning_nil⟩
  | stop hres hs ih => exact stop_noRunning hs ih.1 ih.2
  | next hres hs ih => exact next_noRunning hs ih.1 ih.2

/-- Claim C5: in every reachable state of the round-robin scheduler at
most one PCB is Running; in particular every list() snapshot contains at
most one Running entry. -/
theorem claim_C5_at_most_one_running (ts mr : Nat) (s : RoundRobin)
    (h : Reached ts mr s) :
    (RoundRobin.list s).countP (fun p => p.state == ProcessState.Running) ≤ 1 := by
  rcases reached_noRunning h with ⟨hr, hw⟩
  rw [RoundRobin.list, List.countP_append, List.countP_append]
  have hr0 : s.ready_queue.countP (fun p => p.state == ProcessState.Running) = 0 :=
    List.countP_eq_zero.mpr (fun p hp => by simpa using hr p hp)
  have hw0 : s.waiting_queue.countP (fun p => p.state == ProcessState.Running) = 0 :=
    List.countP_eq_zero.mpr (fun p hp => by simpa using hw p hp)
  rw [hr0, hw0]
  cases s.current_process with
  | none => simp
  | some p =>
    cases hfp : p.state == ProcessState.Running <;>
      simp [List.countP_cons, hfp]

/-- Witness for claim C5 at a concrete reachable state (the initial
round-robin state with quantum 2, threshold 1). -/
theorem claim_C5_witness :
    (RoundRobin.list (RoundRobin.new 2 1)).countP
      (fun p => p.state == ProcessState.Running) ≤ 1 :=
  claim_C5_at_most_one_running 2 1 (RoundRobin.new 2 1) Reached.init

end PSched
